import Mathlib

/-!
Verification of the similarity ranker in `src/app.py` (`rank_resumes`,
lines 37..44), a shallow embedding of the Python code together with the
library calls it makes (scikit-learn `TfidfVectorizer` with default
settings and `sklearn.metrics.pairwise.cosine_similarity`).

The embedding follows the library semantics precisely:
* the default analyzer lowercases the document and extracts maximal runs
  of word characters of length at least two (token pattern `\b\w\w+\b`);
* the vocabulary is the set of distinct tokens of the corpus; when it is
  empty, `fit_transform` raises `ValueError` (modelled as `Except.error`);
* term frequency is the raw count; the smoothed inverse document
  frequency is `ln((1 + n) / (1 + df)) + 1`; each row of the matrix is
  then L2-normalized, a zero row staying zero (sklearn `normalize`
  substitutes 1 for a zero norm before dividing);
* `cosine_similarity(X, Y)` validates that `Y` has at least one sample,
  raising `ValueError` otherwise (modelled as `Except.error`), then
  L2-normalizes the rows of both arguments and takes dot products;
* `(... * 100).round(2)` scales to a percentage and rounds to two decimal
  places.  The embedding uses the mathematical `round`; numpy rounds
  half-to-even, which differs only at exact midpoints and affects none of
  the statements below.

Exact real arithmetic replaces floating point, so the development is
about the mathematical function the code implements.  The vocabulary is
kept in first-occurrence order rather than the sorted order scikit-learn
uses; the order of the shared index set is not observable in any score
(every sum below ranges over the whole vocabulary list).
-/

namespace ResumeScreener

/-- Word characters of the default token pattern `\b\w\w+\b` (ASCII
fragment of the Unicode class: letters, digits and the underscore). -/
def isWordChar (c : Char) : Bool := c.isAlphanum || c == '_'

/-- Splits a character list into the maximal runs of word characters,
accumulating the current run (reversed) in the second argument. -/
def splitRuns : List Char → List Char → List (List Char)
  | [], cur => if cur.isEmpty then [] else [cur.reverse]
  | c :: cs, cur =>
    if isWordChar c then splitRuns cs (c :: cur)
    else if cur.isEmpty then splitRuns cs [] else cur.reverse :: splitRuns cs []

/-- Default analysis of `TfidfVectorizer`: lowercase, then keep the
maximal word-character runs of length at least two.  Lowercasing is
`Char.toLower` applied to each character, which is what `String.toLower`
does; it is written on the character list so that it evaluates by
`decide`. -/
def tokenize (s : String) : List String :=
  ((splitRuns (s.toList.map Char.toLower) []).filter (fun t => 2 ≤ t.length)).map String.mk

/-- Distinct terms of the corpus, in first-occurrence order. -/
def vocabulary (docs : List String) : List String :=
  ((docs.map tokenize).flatten).dedup

/-- Number of documents of the corpus containing the term. -/
def docFreq (t : String) (docs : List String) : Nat :=
  (docs.filter (fun d => (tokenize d).contains t)).length

/-- Number of occurrences of the term in one document. -/
def termCount (t : String) (d : String) : Nat := (tokenize d).count t

/-- Smoothed inverse document frequency of `TfidfVectorizer`
(`smooth_idf=True`): `ln((1 + n) / (1 + df)) + 1`. -/
noncomputable def idf (t : String) (docs : List String) : ℝ :=
  Real.log ((1 + (docs.length : ℝ)) / (1 + (docFreq t docs : ℝ))) + 1

/-- Dot product of two rows (pointwise product, summed). -/
def dotList (a b : List ℝ) : ℝ := (List.zipWith (fun x y => x * y) a b).sum

/-- Euclidean norm of a row. -/
noncomputable def l2norm (a : List ℝ) : ℝ := Real.sqrt (dotList a a)

/-- Row normalization of sklearn `normalize(X, norm="l2")`: divide by the
norm, a zero norm being replaced by 1 (so a zero row stays zero). -/
noncomputable def l2normalize (v : List ℝ) : List ℝ :=
  v.map (fun x => x / (if l2norm v = 0 then 1 else l2norm v))

/-- Unnormalized tf-idf row of one document: raw count times idf, indexed
by the vocabulary of the corpus. -/
noncomputable def tfidfRow (docs : List String) (d : String) : List ℝ :=
  (vocabulary docs).map (fun t => (termCount t d : ℝ) * idf t docs)

/-- Rows of `TfidfVectorizer().fit_transform(docs).toarray()`: tf-idf
weights, L2-normalized per row. -/
noncomputable def tfidfVectors (docs : List String) : List (List ℝ) :=
  docs.map (fun d => l2normalize (tfidfRow docs d))

/-- One entry of `sklearn.metrics.pairwise.cosine_similarity`: both rows
are L2-normalized (zero rows staying zero) and then multiplied. -/
noncomputable def cosine_similarity (a b : List ℝ) : ℝ :=
  dotList (l2normalize a) (l2normalize b)

/-- Elementwise `numpy.round(_, 2)` on the percentage. -/
noncomputable def round2 (x : ℝ) : ℝ := (round (x * 100) : ℤ) / 100

/-- Error message of `CountVectorizer` when the corpus yields no terms. -/
def emptyVocabularyMsg : String :=
  "empty vocabulary; perhaps the documents only contain stop words"

/-- Error message of `check_array` when `cosine_similarity` receives an
empty sample array (the `vectors[1:]` slice for an empty resume list). -/
def zeroSamplesMsg : String :=
  "Found array with 0 sample(s) while a minimum of 1 is required"

/-- Shallow embedding of `rank_resumes` (src/app.py lines 37..44).  The
two `ValueError` exits of the libraries become `Except.error`; they arise
in program order: `fit_transform` (line 39) raises on an empty
vocabulary, then `cosine_similarity` (line 43) raises when the slice
`vectors[1:]` has no rows. -/
noncomputable def rank_resumes (job_description : String) (resumes : List String) :
    Except String (List ℝ) :=
  let documents := [job_description] ++ resumes
  if (vocabulary documents).isEmpty then
    Except.error emptyVocabularyMsg
  else
    let vectors := tfidfVectors documents
    let job_description_vector := vectors.headD []
    let resume_vectors := vectors.tail
    if resume_vectors.isEmpty then
      Except.error zeroSamplesMsg
    else
      Except.ok ((resume_vectors.map
        (fun v => cosine_similarity job_description_vector v)).map
          (fun c => round2 (c * 100)))

/-- Heap model of line 38, `documents = [job_description] + resumes`:
the store holds the allocated list objects, `resumesRef` is the address
of the argument list, and list concatenation allocates a fresh object at
the end of the store instead of writing to the argument. -/
def buildDocuments (jd : String) (resumesRef : Nat) (store : List (List String)) :
    Nat × List (List String) :=
  (store.length, store ++ [jd :: store.getD resumesRef []])

/-! ### Elementary facts about the row operations -/

lemma dotList_nil_left (b : List ℝ) : dotList [] b = 0 := rfl

lemma dotList_nil_right (a : List ℝ) : dotList a [] = 0 := by cases a <;> rfl

lemma dotList_cons_cons (x y : ℝ) (a b : List ℝ) :
    dotList (x :: a) (y :: b) = x * y + dotList a b := by
  simp [dotList]

lemma dotList_self_eq_sum_sq (v : List ℝ) :
    dotList v v = (v.map (fun x => x * x)).sum := by
  induction v with
  | nil => rfl
  | cons x t ih => simp [dotList_cons_cons, ih]

lemma dotList_self_nonneg (v : List ℝ) : 0 ≤ dotList v v := by
  rw [dotList_self_eq_sum_sq]
  refine List.sum_nonneg ?_
  intro x hx
  rcases List.mem_map.mp hx with ⟨y, _, rfl⟩
  exact mul_self_nonneg y

lemma dotList_nonneg {a b : List ℝ} (ha : ∀ x ∈ a, 0 ≤ x) (hb : ∀ x ∈ b, 0 ≤ x) :
    0 ≤ dotList a b := by
  induction a generalizing b with
  | nil => simp [dotList_nil_left]
  | cons x t ih =>
    cases b with
    | nil => simp [dotList_nil_right]
    | cons y u =>
      rw [dotList_cons_cons]
      have hx := ha x (List.mem_cons_self x t)
      have hy := hb y (List.mem_cons_self y u)
      have ht : ∀ z ∈ t, 0 ≤ z := fun z hz => ha z (List.mem_cons_of_mem x hz)
      have hu : ∀ z ∈ u, 0 ≤ z := fun z hz => hb z (List.mem_cons_of_mem y hz)
      exact add_nonneg (mul_nonneg hx hy) (ih ht hu)

lemma dotList_eq_zero_of_left {a : List ℝ} (ha : ∀ x ∈ a, x = 0) (b : List ℝ) :
    dotList a b = 0 := by
  induction a generalizing b with
  | nil => rfl
  | cons x t ih =>
    cases b with
    | nil => simp [dotList_nil_right]
    | cons y u =>
      rw [dotList_cons_cons]
      rw [ha x (List.mem_cons_self x t), ih (fun z hz => ha z (List.mem_cons_of_mem x hz)) u]
      ring

lemma dotList_comm (a b : List ℝ) : dotList a b = dotList b a := by
  induction a generalizing b with
  | nil => cases b <;> rfl
  | cons x t ih =>
    cases b with
    | nil => rfl
    | cons y u => rw [dotList_cons_cons, dotList_cons_cons, ih, mul_comm]

lemma dotList_eq_zero_of_right {b : List ℝ} (hb : ∀ x ∈ b, x = 0) (a : List ℝ) :
    dotList a b = 0 := by
  rw [dotList_comm]
  exact dotList_eq_zero_of_left hb a

lemma l2norm_nonneg (v : List ℝ) : 0 ≤ l2norm v := Real.sqrt_nonneg _

lemma l2norm_eq_zero_iff (v : List ℝ) : l2norm v = 0 ↔ dotList v v = 0 := by
  unfold l2norm
  rw [Real.sqrt_eq_zero']
  constructor
  · exact fun h => le_antisymm h (dotList_self_nonneg v)
  · exact fun h => le_of_eq h

lemma eq_zero_of_dotList_self_eq_zero {v : List ℝ} (h : dotList v v = 0) :
    ∀ x ∈ v, x = 0 := by
  intro x hx
  rw [dotList_self_eq_sum_sq] at h
  have hmem : x * x ∈ v.map (fun x => x * x) := List.mem_map_of_mem _ hx
  have hz : x * x = 0 := by
    refine List.all_zero_of_le_zero_le_of_sum_eq_zero ?_ h hmem
    intro y hy
    rcases List.mem_map.mp hy with ⟨z, _, rfl⟩
    exact mul_self_nonneg z
  exact mul_self_eq_zero.mp hz

/-- The divisor used by the sklearn row normalization is positive. -/
lemma l2normDivisor_pos (v : List ℝ) :
    0 < (if l2norm v = 0 then 1 else l2norm v) := by
  split
  · exact one_pos
  · rename_i h
    exact lt_of_le_of_ne (l2norm_nonneg v) (Ne.symm h)

lemma l2normalize_nonneg {v : List ℝ} (hv : ∀ x ∈ v, 0 ≤ x) :
    ∀ x ∈ l2normalize v, 0 ≤ x := by
  intro x hx
  rcases List.mem_map.mp hx with ⟨y, hy, rfl⟩
  exact div_nonneg (hv y hy) (l2normDivisor_pos v).le

lemma l2normalize_all_zero {v : List ℝ} (hv : ∀ x ∈ v, x = 0) :
    ∀ x ∈ l2normalize v, x = 0 := by
  intro x hx
  rcases List.mem_map.mp hx with ⟨y, hy, rfl⟩
  rw [hv y hy, zero_div]

lemma dotList_map_div (a b : List ℝ) (c d : ℝ) :
    dotList (a.map (fun x => x / c)) (b.map (fun x => x / d)) = dotList a b / (c * d) := by
  induction a generalizing b with
  | nil => simp [dotList_nil_left]
  | cons x t ih =>
    cases b with
    | nil => simp [dotList_nil_right]
    | cons y u =>
      simp only [List.map_cons, dotList_cons_cons, ih, add_div]
      congr 1
      rw [div_mul_div_comm]

lemma dotList_l2normalize_self (v : List ℝ) :
    dotList (l2normalize v) (l2normalize v) = if l2norm v = 0 then 0 else 1 := by
  unfold l2normalize
  rw [dotList_map_div]
  split
  · rename_i h
    rw [(l2norm_eq_zero_iff v).mp h]
    simp
  · rename_i h
    have hvv : dotList v v ≠ 0 := fun hz => h ((l2norm_eq_zero_iff v).mpr hz)
    have : l2norm v * l2norm v = dotList v v :=
      Real.mul_self_sqrt (dotList_self_nonneg v)
    rw [this, div_self hvv]

lemma dotList_l2normalize_self_le_one (v : List ℝ) :
    dotList (l2normalize v) (l2normalize v) ≤ 1 := by
  rw [dotList_l2normalize_self]
  split <;> norm_num

/-- Pointwise arithmetic-geometric mean bound on the dot product. -/
lemma dotList_le_avg (a b : List ℝ) :
    dotList a b ≤ (dotList a a + dotList b b) / 2 := by
  induction a generalizing b with
  | nil =>
    rw [dotList_nil_left, dotList_nil_left]
    have := dotList_self_nonneg b
    linarith
  | cons x t ih =>
    cases b with
    | nil =>
      rw [dotList_nil_right, dotList_nil_right]
      have := dotList_self_nonneg (x :: t)
      linarith
    | cons y u =>
      have hS := ih u
      simp only [dotList_cons_cons]
      nlinarith [sq_nonneg (x - y)]

lemma cosine_similarity_le_one (a b : List ℝ) : cosine_similarity a b ≤ 1 := by
  unfold cosine_similarity
  have h := dotList_le_avg (l2normalize a) (l2normalize b)
  have ha := dotList_l2normalize_self_le_one a
  have hb := dotList_l2normalize_self_le_one b
  linarith

lemma cosine_similarity_nonneg {a b : List ℝ} (ha : ∀ x ∈ a, 0 ≤ x)
    (hb : ∀ x ∈ b, 0 ≤ x) : 0 ≤ cosine_similarity a b :=
  dotList_nonneg (l2normalize_nonneg ha) (l2normalize_nonneg hb)

lemma cosine_similarity_eq_zero_of_left {a : List ℝ} (ha : l2norm a = 0)
    (b : List ℝ) : cosine_similarity a b = 0 :=
  dotList_eq_zero_of_left
    (l2normalize_all_zero (eq_zero_of_dotList_self_eq_zero ((l2norm_eq_zero_iff a).mp ha))) _

lemma cosine_similarity_eq_zero_of_right {b : List ℝ} (hb : l2norm b = 0)
    (a : List ℝ) : cosine_similarity a b = 0 :=
  dotList_eq_zero_of_right
    (l2normalize_all_zero (eq_zero_of_dotList_self_eq_zero ((l2norm_eq_zero_iff b).mp hb))) _

/-! ### Facts about the tf-idf weighting -/

lemma docFreq_le_length (t : String) (docs : List String) : docFreq t docs ≤ docs.length :=
  List.length_filter_le _ _

lemma one_le_idf (t : String) (docs : List String) : 1 ≤ idf t docs := by
  unfold idf
  have h1 : (0 : ℝ) < 1 + (docFreq t docs : ℝ) := by positivity
  have h2 : (1 : ℝ) + (docFreq t docs : ℝ) ≤ 1 + (docs.length : ℝ) := by
    have h := docFreq_le_length t docs
    have : (docFreq t docs : ℝ) ≤ (docs.length : ℝ) := Nat.cast_le.mpr h
    linarith
  have hlog : 0 ≤ Real.log ((1 + (docs.length : ℝ)) / (1 + (docFreq t docs : ℝ))) :=
    Real.log_nonneg ((one_le_div h1).mpr h2)
  linarith

lemma idf_pos (t : String) (docs : List String) : 0 < idf t docs :=
  lt_of_lt_of_le one_pos (one_le_idf t docs)

lemma tfidfRow_nonneg (docs : List String) (d : String) :
    ∀ x ∈ tfidfRow docs d, 0 ≤ x := by
  intro x hx
  rcases List.mem_map.mp hx with ⟨t, _, rfl⟩
  exact mul_nonneg (Nat.cast_nonneg _) (idf_pos t docs).le

lemma mem_vocabulary {docs : List String} {d t : String} (hd : d ∈ docs)
    (ht : t ∈ tokenize d) : t ∈ vocabulary docs := by
  unfold vocabulary
  rw [List.mem_dedup, List.mem_flatten]
  exact ⟨tokenize d, List.mem_map_of_mem _ hd, ht⟩

/-! ### Unfolding the ranker -/

/-- On a corpus with vocabulary and at least one resume, the ranker
returns one rounded percentage per resume, in input order. -/
lemma rank_resumes_eq_ok (jd : String) (rs : List String)
    (h1 : vocabulary ([jd] ++ rs) ≠ []) (h2 : rs ≠ []) :
    rank_resumes jd rs = Except.ok (rs.map (fun r =>
      round2 (cosine_similarity (l2normalize (tfidfRow ([jd] ++ rs) jd))
        (l2normalize (tfidfRow ([jd] ++ rs) r)) * 100))) := by
  simp only [rank_resumes, List.singleton_append, tfidfVectors, List.map_cons,
    List.tail_cons, List.headD_cons, List.map_map]
  rw [if_neg, if_neg]
  · rfl
  · simp only [List.isEmpty_eq_true, List.map_eq_nil_iff]
    exact h2
  · simp only [List.isEmpty_eq_true]
    exact h1

lemma rank_resumes_empty_vocab (jd : String) (rs : List String)
    (h : vocabulary ([jd] ++ rs) = []) :
    rank_resumes jd rs = Except.error emptyVocabularyMsg := by
  simp only [rank_resumes, List.singleton_append]
  rw [if_pos]
  simp only [List.isEmpty_eq_true]
  exact h

lemma rank_resumes_empty_resumes (jd : String)
    (h : vocabulary [jd] ≠ []) :
    rank_resumes jd [] = Except.error zeroSamplesMsg := by
  simp only [rank_resumes, List.singleton_append, tfidfVectors, List.map_cons,
    List.tail_cons, List.headD_cons, List.map_nil]
  rw [if_neg, if_pos]
  · rfl
  · simp only [List.isEmpty_eq_true]
    exact h

/-- Inversion: a normal return implies a vocabulary, a non-empty resume
list, and the exact shape of the scores. -/
lemma rank_resumes_ok_inv {jd : String} {rs : List String} {scores : List ℝ}
    (h : rank_resumes jd rs = Except.ok scores) :
    vocabulary ([jd] ++ rs) ≠ [] ∧ rs ≠ [] ∧
      scores = rs.map (fun r =>
        round2 (cosine_similarity (l2normalize (tfidfRow ([jd] ++ rs) jd))
          (l2normalize (tfidfRow ([jd] ++ rs) r)) * 100)) := by
  by_cases h1 : vocabulary ([jd] ++ rs) = []
  · rw [rank_resumes_empty_vocab jd rs h1] at h
    exact absurd h (by simp)
  · by_cases h2 : rs = []
    · subst h2
      rw [rank_resumes_empty_resumes jd h1] at h
      exact absurd h (by simp)
    · rw [rank_resumes_eq_ok jd rs h1 h2] at h
      exact ⟨h1, h2, (Except.ok.injEq _ _).mp h.symm⟩

/-! ### Rounding -/

lemma round2_zero : round2 0 = 0 := by
  unfold round2
  norm_num

lemma round2_100 : round2 (100 : ℝ) = 100 := by
  unfold round2
  rw [show (100 : ℝ) * 100 = ((10000 : ℤ) : ℝ) by norm_num, round_intCast]
  norm_num

lemma round2_nonneg {x : ℝ} (h : 0 ≤ x) : 0 ≤ round2 x := by
  unfold round2
  have h1 : (0 : ℤ) ≤ round (x * 100) := by
    rw [round_eq]
    refine Int.le_floor.mpr ?_
    push_cast
    linarith
  have h2 : (0 : ℝ) ≤ ((round (x * 100) : ℤ) : ℝ) := by exact_mod_cast h1
  positivity

lemma round2_le_100 {x : ℝ} (h : x ≤ 100) : round2 x ≤ 100 := by
  unfold round2
  have h1 : round (x * 100) ≤ 10000 := by
    rw [round_eq]
    have hlt : ⌊x * 100 + 1 / 2⌋ < 10001 := by
      refine Int.floor_lt.mpr ?_
      push_cast
      linarith
    omega
  have h2 : ((round (x * 100) : ℤ) : ℝ) ≤ 10000 := by exact_mod_cast h1
  rw [div_le_iff₀ (by norm_num : (0 : ℝ) < 100)]
  linarith

/-! ### Further similarity lemmas -/

lemma l2norm_l2normalize_eq_zero {v : List ℝ} (h : l2norm v = 0) :
    l2norm (l2normalize v) = 0 :=
  (l2norm_eq_zero_iff _).mpr (dotList_eq_zero_of_left
    (l2normalize_all_zero (eq_zero_of_dotList_self_eq_zero ((l2norm_eq_zero_iff v).mp h))) _)

/-- Cosine similarity of a nonzero row with itself is exactly 1. -/
lemma cosine_similarity_self_eq_one {v : List ℝ} (h : dotList v v ≠ 0) :
    cosine_similarity (l2normalize v) (l2normalize v) = 1 := by
  unfold cosine_similarity
  rw [dotList_l2normalize_self]
  rw [if_neg]
  intro hzero
  have hnv : l2norm v ≠ 0 := fun hz => h ((l2norm_eq_zero_iff v).mp hz)
  have h1 := dotList_l2normalize_self v
  rw [if_neg hnv] at h1
  have h0 : dotList (l2normalize v) (l2normalize v) = 0 :=
    (l2norm_eq_zero_iff _).mp hzero
  rw [h1] at h0
  exact one_ne_zero h0

lemma dotList_map_same {α : Type} (l : List α) (f g : α → ℝ)
    (h : ∀ t ∈ l, f t * g t = 0) : dotList (l.map f) (l.map g) = 0 := by
  induction l with
  | nil => rfl
  | cons a t ih =>
    simp only [List.map_cons, dotList_cons_cons]
    rw [h a (List.mem_cons_self a t), ih (fun b hb => h b (List.mem_cons_of_mem _ hb))]
    ring

/-- Two documents whose term counts never overlap on the vocabulary have
cosine similarity 0. -/
lemma cosine_similarity_rows_eq_zero {docs : List String} {d1 d2 : String}
    (h : ∀ t ∈ vocabulary docs, termCount t d1 = 0 ∨ termCount t d2 = 0) :
    cosine_similarity (l2normalize (tfidfRow docs d1))
      (l2normalize (tfidfRow docs d2)) = 0 := by
  unfold cosine_similarity l2normalize tfidfRow
  simp only [List.map_map]
  apply dotList_map_same
  intro t ht
  rcases h t ht with h0 | h0 <;> simp [Function.comp, h0]

/-- A document with at least one token has a tf-idf row of positive
squared norm. -/
lemma dotList_tfidfRow_self_pos {docs : List String} {d : String} (hd : d ∈ docs)
    {t0 : String} (ht0 : t0 ∈ tokenize d) :
    0 < dotList (tfidfRow docs d) (tfidfRow docs d) := by
  rw [dotList_self_eq_sum_sq]
  have hv : t0 ∈ vocabulary docs := mem_vocabulary hd ht0
  have hmem : ((termCount t0 d : ℝ) * idf t0 docs) * ((termCount t0 d : ℝ) * idf t0 docs) ∈
      (tfidfRow docs d).map (fun x => x * x) := by
    unfold tfidfRow
    rw [List.map_map]
    exact List.mem_map_of_mem _ hv
  have hc : 0 < termCount t0 d := by
    unfold termCount
    exact List.count_pos_iff.mpr ht0
  have hc' : (1 : ℝ) ≤ (termCount t0 d : ℝ) := by exact_mod_cast hc
  have hepos : 0 < (termCount t0 d : ℝ) * idf t0 docs := by
    nlinarith [one_le_idf t0 docs]
  have hnn : ∀ x ∈ (tfidfRow docs d).map (fun x => x * x), 0 ≤ x := by
    intro x hx
    rcases List.mem_map.mp hx with ⟨y, _, rfl⟩
    exact mul_self_nonneg y
  calc (0 : ℝ) < ((termCount t0 d : ℝ) * idf t0 docs) * ((termCount t0 d : ℝ) * idf t0 docs) := by
        positivity
    _ ≤ ((tfidfRow docs d).map (fun x => x * x)).sum := List.single_le_sum hnn _ hmem

/-- On a job description with no tokens, every resume scores 0 (its
tf-idf row is the zero vector). -/
lemma rank_resumes_no_jd_tokens (jd : String) (rs : List String)
    (hjd : tokenize jd = []) (h1 : vocabulary ([jd] ++ rs) ≠ []) (h2 : rs ≠ []) :
    rank_resumes jd rs = Except.ok (rs.map (fun _ => 0)) := by
  rw [rank_resumes_eq_ok jd rs h1 h2]
  congr 1
  apply List.map_congr_left
  intro r _
  have hrow : ∀ x ∈ tfidfRow ([jd] ++ rs) jd, x = 0 := by
    intro x hx
    rcases List.mem_map.mp hx with ⟨t, _, rfl⟩
    rw [termCount, hjd]
    simp
  have hz : l2norm (tfidfRow ([jd] ++ rs) jd) = 0 :=
    (l2norm_eq_zero_iff _).mpr (dotList_eq_zero_of_left hrow _)
  rw [cosine_similarity_eq_zero_of_left (l2norm_l2normalize_eq_zero hz) _, zero_mul,
    round2_zero]

/-- Positional access through a map, with a default on both sides. -/
lemma getD_map_of_lt {α β : Type} (f : α → β) (l : List α) (i : Nat) (h : i < l.length)
    (d : β) (d' : α) : (l.map f).getD i d = f (l.getD i d') := by
  induction l generalizing i with
  | nil => simp at h
  | cons x t ih =>
    cases i with
    | zero => rfl
    | succ n =>
      simp only [List.map_cons, List.getD_cons_succ]
      exact ih n (by simpa using h)

lemma getD_append_length {α : Type} (l : List α) (x : α) (d : α) :
    (l ++ [x]).getD l.length d = x := by
  induction l with
  | nil => rfl
  | cons a t ih => simp [ih]

/-- A document with no tokens has the zero tf-idf row. -/
lemma tfidfRow_zero_of_no_tokens {docs : List String} {d : String}
    (hd : tokenize d = []) : l2norm (tfidfRow docs d) = 0 := by
  refine (l2norm_eq_zero_iff _).mpr (dotList_eq_zero_of_left ?_ _)
  intro x hx
  rcases List.mem_map.mp hx with ⟨t, _, rfl⟩
  rw [termCount, hd]
  simp

/-! ### Concrete evaluations used by the witnesses -/

lemma rank_eval_a_zz : rank_resumes "a" ["zz"] = Except.ok [0] := by
  rw [rank_resumes_no_jd_tokens "a" ["zz"] (by decide) (by decide) (by decide)]
  rfl

lemma rank_eval_b_yy : rank_resumes "b" ["yy"] = Except.ok [0] := by
  rw [rank_resumes_no_jd_tokens "b" ["yy"] (by decide) (by decide) (by decide)]
  rfl

lemma rank_eval_c_xx_xx : rank_resumes "c" ["xx", "xx"] = Except.ok [0, 0] := by
  rw [rank_resumes_no_jd_tokens "c" ["xx", "xx"] (by decide) (by decide) (by decide)]
  rfl

lemma rank_eval_pd_a : rank_resumes "python developer" ["a"] = Except.ok [0] := by
  rw [rank_resumes_eq_ok _ _ (by decide) (by decide)]
  simp only [List.map_cons, List.map_nil]
  rw [cosine_similarity_eq_zero_of_right
    (l2norm_l2normalize_eq_zero (tfidfRow_zero_of_no_tokens (by decide))) _,
    zero_mul, round2_zero]

lemma rank_eval_ab : rank_resumes "ab" ["ab", "cd"] = Except.ok [100, 0] := by
  rw [rank_resumes_eq_ok _ _ (by decide) (by decide)]
  simp only [List.map_cons, List.map_nil]
  rw [cosine_similarity_self_eq_one
    (dotList_tfidfRow_self_pos
      (by decide : "ab" ∈ ["ab"] ++ ["ab", "cd"])
      (by decide : "ab" ∈ tokenize "ab")).ne']
  rw [cosine_similarity_rows_eq_zero
    (by decide : ∀ t ∈ vocabulary (["ab"] ++ ["ab", "cd"]),
      termCount t "ab" = 0 ∨ termCount t "cd" = 0)]
  rw [one_mul, round2_100, zero_mul, round2_zero]

/-! ### The claims -/

/-- C3 counterexample: at the valid-shape input of an empty job
description and one empty resume, the core does raise (the vectorizer
finds no vocabulary), so `rank` is not total on valid shapes. -/
theorem claim3_counterexample :
    rank_resumes "" [""] = Except.error emptyVocabularyMsg :=
  rank_resumes_empty_vocab "" [""] (by decide)

/-- C3 (amended): `rank` returns normally exactly when the corpus yields
at least one vocabulary term and the resume sequence is non-empty; on the
two remaining valid input shapes it raises (the vectorizer on an empty
vocabulary, the cosine-similarity validation on an empty sample array). -/
theorem claim3_total_on_nondegenerate_inputs (jd : String) (rs : List String) :
    (∃ scores, rank_resumes jd rs = Except.ok scores) ↔
      (vocabulary ([jd] ++ rs) ≠ [] ∧ rs ≠ []) := by
  constructor
  · rintro ⟨scores, h⟩
    obtain ⟨h1, h2, -⟩ := rank_resumes_ok_inv h
    exact ⟨h1, h2⟩
  · rintro ⟨h1, h2⟩
    exact ⟨_, rank_resumes_eq_ok jd rs h1 h2⟩

/-- C4 counterexample: with an empty resume sequence the function does
not return an empty sequence; the cosine-similarity step rejects the
empty slice `vectors[1:]` and raises. -/
theorem claim4_counterexample :
    rank_resumes "software engineer" [] = Except.error zeroSamplesMsg :=
  rank_resumes_empty_resumes "software engineer" (by decide)

/-- C4 (amended): calling `rank` with an empty resume sequence always
raises, never returning an empty sequence: the empty-vocabulary error
when the job description yields no terms, otherwise the zero-samples
error of the cosine-similarity validation. -/
theorem claim4_empty_resumes_raises (jd : String) :
    rank_resumes jd [] = Except.error
      (if vocabulary [jd] = [] then emptyVocabularyMsg else zeroSamplesMsg) := by
  by_cases h : vocabulary [jd] = []
  · rw [if_pos h]
    exact rank_resumes_empty_vocab jd [] h
  · rw [if_neg h]
    exact rank_resumes_empty_resumes jd h

/-- C5 counterexample: when the corpus has no extractable vocabulary the
function raises the vectorizer error instead of returning zero scores. -/
theorem claim5_counterexample :
    rank_resumes "" ["   "] = Except.error emptyVocabularyMsg :=
  rank_resumes_empty_vocab "" ["   "] (by decide)

/-- C5 (amended): whenever the vectorization step can extract no
vocabulary from the corpus, `rank` raises the empty-vocabulary
`ValueError` of the vectorizer rather than returning a score of 0 for
every resume. -/
theorem claim5_empty_vocabulary_raises (jd : String) (rs : List String)
    (h : vocabulary ([jd] ++ rs) = []) :
    rank_resumes jd rs = Except.error emptyVocabularyMsg :=
  rank_resumes_empty_vocab jd rs h

theorem claim5_witness :
    rank_resumes " " [""] = Except.error emptyVocabularyMsg :=
  claim5_empty_vocabulary_raises " " [""] (by decide)

/-- C7: `rank` is deterministic and side-effect free; the embedding is a
pure function of the job description and the resume list, so equal
inputs give bit-identical outputs. -/
theorem claim7_deterministic_pure (jd jd' : String) (rs rs' : List String)
    (hjd : jd = jd') (hrs : rs = rs') :
    rank_resumes jd rs = rank_resumes jd' rs' := by
  subst hjd
  subst hrs
  rfl

theorem claim7_witness :
    rank_resumes "python developer" ["python"] =
      rank_resumes "python developer" ["python"] :=
  claim7_deterministic_pure "python developer" "python developer"
    ["python"] ["python"] rfl rfl

/-- C10: building the corpus on line 38 does not mutate the arguments:
in the heap model, `[job_description] + resumes` allocates a fresh list
object at a fresh address, every previously allocated object (the
argument list in particular) is unchanged, and the fresh object holds
the job description at position 0 followed by the resumes. -/
theorem claim10_corpus_build_frame (jd : String) (ref : Nat)
    (store : List (List String)) :
    (buildDocuments jd ref store).2.take store.length = store ∧
    (buildDocuments jd ref store).2.getD (buildDocuments jd ref store).1 [] =
      [jd] ++ store.getD ref [] := by
  unfold buildDocuments
  exact ⟨List.take_left store _, getD_append_length store _ []⟩

/-- C1: whenever `rank` returns, it returns one score per resume, in
input order: the score at position `i` compares the vector at corpus
position `i + 1` (the vector of `resumes[i]`) against the vector at
corpus position 0 (the job description). -/
theorem claim1_length_and_alignment (jd : String) (rs : List String)
    (scores : List ℝ) (h : rank_resumes jd rs = Except.ok scores) :
    scores.length = rs.length ∧
      ∀ i, i < rs.length →
        scores.getD i 0 =
          round2 (cosine_similarity ((tfidfVectors ([jd] ++ rs)).getD 0 [])
            ((tfidfVectors ([jd] ++ rs)).getD (i + 1) []) * 100) := by
  obtain ⟨-, -, hs⟩ := rank_resumes_ok_inv h
  subst hs
  refine ⟨by simp, ?_⟩
  intro i hi
  rw [getD_map_of_lt _ rs i hi 0 ""]
  simp only [List.singleton_append, tfidfVectors, List.map_cons, List.getD_cons_zero,
    List.getD_cons_succ]
  rw [getD_map_of_lt _ rs i hi [] ""]

theorem claim1_witness :
    ([(0 : ℝ)]).length = (["zz"] : List String).length ∧
    ([(0 : ℝ)]).getD 0 0 =
      round2 (cosine_similarity ((tfidfVectors (["a"] ++ ["zz"])).getD 0 [])
        ((tfidfVectors (["a"] ++ ["zz"])).getD 1 []) * 100) :=
  ⟨(claim1_length_and_alignment "a" ["zz"] [0] rank_eval_a_zz).1,
   (claim1_length_and_alignment "a" ["zz"] [0] rank_eval_a_zz).2 0 (by decide)⟩

/-- C2: every score returned by `rank` on a non-empty resume batch is the
cosine similarity of the resume against the job description — a value in
the interval [0, 1] — multiplied by 100 and rounded to two decimal
places, hence a value in [0, 100]. -/
theorem claim2_scores_percentage_range (jd : String) (rs : List String)
    (scores : List ℝ) (i : Nat) (h : rank_resumes jd rs = Except.ok scores)
    (_hne : rs ≠ []) (hi : i < scores.length) :
    0 ≤ cosine_similarity (l2normalize (tfidfRow ([jd] ++ rs) jd))
        (l2normalize (tfidfRow ([jd] ++ rs) (rs.getD i ""))) ∧
    cosine_similarity (l2normalize (tfidfRow ([jd] ++ rs) jd))
        (l2normalize (tfidfRow ([jd] ++ rs) (rs.getD i ""))) ≤ 1 ∧
    scores.getD i 0 =
      round2 (cosine_similarity (l2normalize (tfidfRow ([jd] ++ rs) jd))
        (l2normalize (tfidfRow ([jd] ++ rs) (rs.getD i ""))) * 100) ∧
    0 ≤ scores.getD i 0 ∧ scores.getD i 0 ≤ 100 := by
  obtain ⟨-, -, hs⟩ := rank_resumes_ok_inv h
  subst hs
  have hlen : i < rs.length := by simpa using hi
  rw [getD_map_of_lt _ rs i hlen 0 ""]
  have hc0 : 0 ≤ cosine_similarity (l2normalize (tfidfRow ([jd] ++ rs) jd))
      (l2normalize (tfidfRow ([jd] ++ rs) (rs.getD i ""))) :=
    cosine_similarity_nonneg (l2normalize_nonneg (tfidfRow_nonneg _ _))
      (l2normalize_nonneg (tfidfRow_nonneg _ _))
  have hc1 : cosine_similarity (l2normalize (tfidfRow ([jd] ++ rs) jd))
      (l2normalize (tfidfRow ([jd] ++ rs) (rs.getD i ""))) ≤ 1 :=
    cosine_similarity_le_one _ _
  exact ⟨hc0, hc1, rfl, round2_nonneg (by nlinarith), round2_le_100 (by nlinarith)⟩

theorem claim2_witness :
    0 ≤ cosine_similarity (l2normalize (tfidfRow (["b"] ++ ["yy"]) "b"))
        (l2normalize (tfidfRow (["b"] ++ ["yy"]) ((["yy"] : List String).getD 0 ""))) ∧
    cosine_similarity (l2normalize (tfidfRow (["b"] ++ ["yy"]) "b"))
        (l2normalize (tfidfRow (["b"] ++ ["yy"]) ((["yy"] : List String).getD 0 ""))) ≤ 1 ∧
    ([(0 : ℝ)]).getD 0 0 =
      round2 (cosine_similarity (l2normalize (tfidfRow (["b"] ++ ["yy"]) "b"))
        (l2normalize (tfidfRow (["b"] ++ ["yy"]) ((["yy"] : List String).getD 0 ""))) * 100) ∧
    0 ≤ ([(0 : ℝ)]).getD 0 0 ∧ ([(0 : ℝ)]).getD 0 0 ≤ 100 :=
  claim2_scores_percentage_range "b" ["yy"] [0] 0 rank_eval_b_yy (by decide) (by decide)

/-- C6: whenever either the job description or a resume has a term
vector of zero norm, the cosine similarity used by `rank` for that pair
resolves to 0 and that resume scores 0, with no numeric error. -/
theorem claim6_zero_norm_zero_score (jd : String) (rs : List String)
    (scores : List ℝ) (i : Nat) (h : rank_resumes jd rs = Except.ok scores)
    (hi : i < rs.length)
    (hz : l2norm (tfidfRow ([jd] ++ rs) jd) = 0 ∨
          l2norm (tfidfRow ([jd] ++ rs) (rs.getD i "")) = 0) :
    cosine_similarity (l2normalize (tfidfRow ([jd] ++ rs) jd))
      (l2normalize (tfidfRow ([jd] ++ rs) (rs.getD i ""))) = 0 ∧
    scores.getD i 0 = 0 := by
  obtain ⟨-, -, hs⟩ := rank_resumes_ok_inv h
  subst hs
  have hcos : cosine_similarity (l2normalize (tfidfRow ([jd] ++ rs) jd))
      (l2normalize (tfidfRow ([jd] ++ rs) (rs.getD i ""))) = 0 := by
    rcases hz with hz | hz
    · exact cosine_similarity_eq_zero_of_left (l2norm_l2normalize_eq_zero hz) _
    · exact cosine_similarity_eq_zero_of_right (l2norm_l2normalize_eq_zero hz) _
  refine ⟨hcos, ?_⟩
  rw [getD_map_of_lt _ rs i hi 0 "", hcos, zero_mul, round2_zero]

theorem claim6_witness :
    cosine_similarity
      (l2normalize (tfidfRow (["python developer"] ++ ["a"]) "python developer"))
      (l2normalize (tfidfRow (["python developer"] ++ ["a"])
        ((["a"] : List String).getD 0 ""))) = 0 ∧
    ([(0 : ℝ)]).getD 0 0 = 0 :=
  claim6_zero_norm_zero_score "python developer" ["a"] [0] 0 rank_eval_pd_a
    (by decide) (Or.inr (tfidfRow_zero_of_no_tokens (by decide)))

/-- C8 counterexample: with the job description `"a"` (which yields no
token, hence a zero vector), the resume identical to the job description
and the vocabulary-disjoint resume `"zz"` both score 0, so the identical
resume does not score strictly higher. -/
theorem claim8_counterexample :
    rank_resumes "a" ["a", "zz"] = Except.ok [0, 0] ∧
      ¬ (([0, 0] : List ℝ).getD 1 0 < ([0, 0] : List ℝ).getD 0 0) := by
  constructor
  · rw [rank_resumes_no_jd_tokens "a" ["a", "zz"] (by decide) (by decide) (by decide)]
    rfl
  · simp

/-- C8 (amended): provided the job description yields at least one token
(so its term vector is nonzero), a resume with text identical to the job
description scores strictly higher than a resume sharing no vocabulary
with the job description, in any fixed corpus containing both. -/
theorem claim8_identical_beats_disjoint (jd : String) (rs : List String)
    (scores : List ℝ) (i j : Nat) (h : rank_resumes jd rs = Except.ok scores)
    (hi : i < rs.length) (hj : j < rs.length)
    (hid : rs.getD i "" = jd) (htok : tokenize jd ≠ [])
    (hdisj : ∀ t ∈ tokenize jd, t ∉ tokenize (rs.getD j "")) :
    scores.getD j 0 < scores.getD i 0 := by
  obtain ⟨-, -, hs⟩ := rank_resumes_ok_inv h
  subst hs
  rw [getD_map_of_lt _ rs i hi 0 "", getD_map_of_lt _ rs j hj 0 "", hid]
  obtain ⟨t0, ht0⟩ := List.exists_mem_of_ne_nil _ htok
  have hjdmem : jd ∈ [jd] ++ rs := by simp
  have hpos := dotList_tfidfRow_self_pos hjdmem ht0
  rw [cosine_similarity_self_eq_one hpos.ne']
  have hzero : cosine_similarity (l2normalize (tfidfRow ([jd] ++ rs) jd))
      (l2normalize (tfidfRow ([jd] ++ rs) (rs.getD j ""))) = 0 := by
    refine cosine_similarity_rows_eq_zero ?_
    intro t ht
    by_cases hmem : t ∈ tokenize jd
    · exact Or.inr (by rw [termCount]; exact List.count_eq_zero.mpr (hdisj t hmem))
    · exact Or.inl (by rw [termCount]; exact List.count_eq_zero.mpr hmem)
  rw [hzero, one_mul, round2_100, zero_mul, round2_zero]
  norm_num

theorem claim8_witness :
    ([(100 : ℝ), 0]).getD 1 0 < ([(100 : ℝ), 0]).getD 0 0 :=
  claim8_identical_beats_disjoint "ab" ["ab", "cd"] [100, 0] 0 1 rank_eval_ab
    (by decide) (by decide) (by decide) (by decide) (by decide)

/-- C9: two resumes with identical text in the same batch receive
identical scores from `rank`. -/
theorem claim9_identical_resumes_equal_scores (jd : String) (rs : List String)
    (scores : List ℝ) (i j : Nat) (h : rank_resumes jd rs = Except.ok scores)
    (hi : i < rs.length) (hj : j < rs.length)
    (heq : rs.getD i "" = rs.getD j "") :
    scores.getD i 0 = scores.getD j 0 := by
  obtain ⟨-, -, hs⟩ := rank_resumes_ok_inv h
  subst hs
  rw [getD_map_of_lt _ rs i hi 0 "", getD_map_of_lt _ rs j hj 0 "", heq]

theorem claim9_witness :
    ([(0 : ℝ), 0]).getD 0 0 = ([(0 : ℝ), 0]).getD 1 0 :=
  claim9_identical_resumes_equal_scores "c" ["xx", "xx"] [0, 0] 0 1
    rank_eval_c_xx_xx (by decide) (by decide) (by decide)

end ResumeScreener
